import Mathlib

/-!
Shallow embedding of civitAI_Model_downloader.py in Lean 4, together with
theorems settling the specification claims about it.

Strings are modelled as lists of characters; filesystem and network effects
are modelled by an explicit world state threaded through the functions.
-/

namespace Civitai

/-- Names, paths and URLs are modelled as lists of characters. -/
abbrev Str := List Char

/-- Model of os.path.join for two components (posix semantics). -/
def pjoin (a b : Str) : Str :=
  if b.head? = some '/' then b
  else if a = [] ∨ a.getLast? = some '/' then a ++ b
  else a ++ '/' :: b

/-- Model of os.path.splitext (posix semantics): split off the extension at
the last dot of the final path component, provided some non-dot character
of that component lies before it. -/
def splitext (p : Str) : Str × Str :=
  let r := p.reverse
  let fnameRev := r.takeWhile (fun c => c ≠ '/')
  let dirRev := r.drop fnameRev.length
  let beforeDotRev := fnameRev.takeWhile (fun c => c ≠ '.')
  if beforeDotRev.length = fnameRev.length then (p, [])
  else
    let rest := fnameRev.drop (beforeDotRev.length + 1)
    if rest.any (fun c => c ≠ '.') then
      (dirRev.reverse ++ rest.reverse, '.' :: beforeDotRev.reverse)
    else (p, [])

/-- The character class of re.sub in sanitize_name: the characters
illegal in file names plus the control ranges 00-1f and 7f-9f. -/
def illegalChar (c : Char) : Bool :=
  c = '<' ∨ c = '>' ∨ c = ':' ∨ c = '"' ∨ c = '/' ∨ c = '\\' ∨
  c = '|' ∨ c = '?' ∨ c = '*' ∨ c.val ≤ 0x1f ∨ (0x7f ≤ c.val ∧ c.val ≤ 0x9f)

/-- Whether a character is stripped by str.strip with the argument set. -/
def inStripSet (set : Str) (c : Char) : Bool := set.contains c

/-- Model of str.strip(chars): drop from the left. -/
def stripLeftChars (set : Str) (s : Str) : Str :=
  s.dropWhile (inStripSet set)

/-- Model of str.strip(chars): drop from both ends. -/
def stripChars (set : Str) (s : Str) : Str :=
  ((s.dropWhile (inStripSet set)).reverse.dropWhile (inStripSet set)).reverse

/-- Model of str.strip() with no argument: strip whitespace from both ends. -/
def stripWs (s : Str) : Str :=
  ((s.dropWhile Char.isWhitespace).reverse.dropWhile Char.isWhitespace).reverse

/-- Model of re.sub replacing every run of two or more underscores by one
underscore (a run of length one is also left as a single underscore). The
flag records whether the previous character was an underscore that has
already been emitted. -/
def collapseAux : Bool → Str → Str
  | _, [] => []
  | prevU, c :: rest =>
    if c = '_' then
      if prevU then collapseAux true rest
      else '_' :: collapseAux true rest
    else c :: collapseAux false rest

/-- Model of re.sub collapsing every underscore run to one underscore. -/
def collapseUnderscores (s : Str) : Str := collapseAux false s

/-- Model of str.replace(old, "") scanning left to right; the fuel is an
upper bound on the input length (each step strictly shortens the input, by
old.length when a nonempty occurrence is deleted, else by one). -/
def delAux (old : Str) : Nat → Str → Str
  | 0, s => s
  | fuel + 1, s =>
    match s with
    | [] => []
    | c :: rest =>
      if old ≠ [] ∧ old.isPrefixOf (c :: rest) then
        delAux old fuel ((c :: rest).drop old.length)
      else c :: delAux old fuel rest

/-- Model of str.replace(old, ""): delete every occurrence of old. -/
def deleteOccs (old s : Str) : Str := delAux old s.length s

/-- Python truthiness of an optional string: None and the empty string are
falsy. -/
def optTruthy : Option Str → Bool
  | none => false
  | some s => s ≠ []

/-- The Windows reserved device names checked by sanitize_name. -/
def reservedNames : List Str :=
  ["CON".data, "PRN".data, "AUX".data, "NUL".data,
   "COM1".data, "COM2".data, "COM3".data, "COM4".data, "COM5".data,
   "COM6".data, "COM7".data, "COM8".data, "COM9".data,
   "LPT1".data, "LPT2".data, "LPT3".data, "LPT4".data, "LPT5".data,
   "LPT6".data, "LPT7".data, "LPT8".data, "LPT9".data]

/-- Model of str.upper restricted to ASCII (sufficient for comparison with
the all-ASCII reserved names). -/
def upperStr (s : Str) : Str := s.map Char.toUpper

/-- Python slice s[:k] where k may be negative (counting from the end). -/
def pySliceTo (s : Str) (k : Int) : Str :=
  if k ≥ 0 then s.take k.toNat
  else s.take (s.length - (-k).toNat)

/-- Model of s.rsplit(sep, 1)[0] for a single-character separator: the part
before the last occurrence of the separator, or the whole string when the
separator does not occur. -/
def rsplitBeforeLast (sep : Char) (s : Str) : Str :=
  let r := s.reverse
  let afterRev := r.takeWhile (fun c => c ≠ sep)
  if afterRev.length = r.length then s
  else (r.drop (afterRev.length + 1)).reverse

set_option maxHeartbeats 1000000
set_option maxRecDepth 10000

/-- The base-name pipeline of sanitize_name (everything the code does to
base_name before the length-budget truncation): optional folder-name
deletion, the illegal-character substitution, the reserved-name rewrite,
the underscore-run collapse and the strip of leading/trailing underscores
and dots. -/
def sanitizeBase (name : Str) (folder_name : Option Str) : Str :=
  let base0 := (splitext name).1
  let base1 :=
    if optTruthy folder_name then
      stripChars ['_'] (deleteOccs (folder_name.getD []) base0)
    else base0
  let base2 := base1.map (fun c => if illegalChar c then '_' else c)
  let base3 := if (upperStr base2) ∈ reservedNames then ['_'] else base2
  stripChars ['_', '.'] (collapseUnderscores base3)

/-- The signed length budget for the base name in the truncation branch of
sanitize_name: max_length - len(extension) - len(join(output_dir,
username, subfolder)). -/
def baseBudget (max_length : Nat) (extension : Str) (sf od un : Str) : Int :=
  (max_length : Int) - (extension.length : Int) -
    ((pjoin (pjoin od un) sf).length : Int)

/-- Embedding of sanitize_name from civitAI_Model_downloader.py. -/
def sanitize_name (name : Str) (folder_name : Option Str)
    (max_length : Nat) (subfolder output_dir uname : Option Str) : Str :=
  let pair := splitext name
  let base0 := pair.1
  let extension := pair.2
  if optTruthy folder_name ∧ base0 = folder_name.getD [] then
    name
  else
    let base4 := sanitizeBase name folder_name
    let base5 :=
      match subfolder, output_dir, uname with
      | some sf, some od, some un =>
        if sf ≠ [] ∧ od ≠ [] ∧ un ≠ [] then
          rsplitBeforeLast '_'
            (pySliceTo base4 (baseBudget max_length extension sf od un))
        else base4
      | _, _, _ => base4
    stripWs (base5 ++ extension)

/-- Substring test, modelling the Python expression sub in s. -/
def strContains (s sub : Str) : Bool :=
  (List.range (s.length + 1)).any (fun i => sub.isPrefixOf (s.drop i))

/-- An HTTP response as seen by the downloader: status code, Content-Type
header and the size in bytes of the streamed body. -/
structure Response where
  status : Nat
  contentType : Str
  body : Nat
deriving DecidableEq

/-- Outcome of one network attempt: a response, or a raised transport
exception (requests.RequestException, timeout, connection reset). -/
inductive AttemptOutcome where
  | success (r : Response)
  | netError
deriving DecidableEq

/-- The observable world state threaded through the embedded functions:
files on disk (path and size), the number of network requests issued, the
number of records appended to the per-creator download_errors log, and the
records appended to the per-creator failed_downloads file. -/
structure World where
  disk : List (Str × Nat)
  requests : Nat
  downloadErrors : Nat
  failedRecords : List (Str × Str)
deriving DecidableEq

/-- os.path.exists on the modelled disk. -/
def fileExists (w : World) (p : Str) : Bool :=
  w.disk.any (fun e => e.1 = p)

/-- Writing a file (mode "wb"): create or overwrite. -/
def writeDisk (d : List (Str × Nat)) (p : Str) (n : Nat) : List (Str × Nat) :=
  (p, n) :: d.filter (fun e => e.1 ≠ p)

/-- Embedding of download_file_or_image. The attempt oracle gives, for each
retry_count value, the outcome of the network request issued by that call.
The Python function recurses at retry_count + 1 only while retry_count <
max_retries, so its call depth is exactly max_retries + 1 - retry_count;
dfiAux runs that recursion by structural recursion on this remaining
attempt count. -/
def dfiAux (oracle : Nat → AttemptOutcome) (url : Str) :
    Nat → Str → Nat → Nat → World → Bool × World
  | 0, _, _, _, w => (false, w)
  | fuel + 1, output_path, retry_count, max_retries, w =>
    if fileExists w output_path then (false, w)
    else
      let w1 : World := { w with requests := w.requests + 1 }
      match oracle retry_count with
      | .netError =>
        if retry_count < max_retries then
          dfiAux oracle url fuel output_path (retry_count + 1) max_retries w1
        else
          (false, { w1 with downloadErrors := w1.downloadErrors + 1 })
      | .success resp =>
        if resp.status = 404 then (false, w1)
        else if 400 ≤ resp.status then
          -- raise_for_status, caught by the generic except branch
          if retry_count < max_retries then
            dfiAux oracle url fuel output_path (retry_count + 1) max_retries
              w1
          else
            (false, { w1 with downloadErrors := w1.downloadErrors + 1 })
        else
          let file_extension :=
            if strContains resp.contentType "image".data then ".jpg".data
            else if strContains resp.contentType "video".data then ".mp4".data
            else (splitext output_path).2
          let newPath := (splitext output_path).1 ++ file_extension
          let w2 : World :=
            { w1 with disk := writeDisk w1.disk newPath resp.body }
          if ".safetensor".data.isSuffixOf newPath ∧
              resp.body < 4 * 1024 * 1024 then
            if retry_count < max_retries then
              dfiAux oracle url fuel newPath (retry_count + 1) max_retries w2
            else
              (false, { w2 with downloadErrors := w2.downloadErrors + 1 })
          else (true, w2)

/-- Embedding of download_file_or_image proper: run the recursion with its
exact call-depth bound as fuel. -/
def download_file_or_image (oracle : Nat → AttemptOutcome) (url : Str)
    (output_path : Str) (retry_count : Nat) (max_retries : Nat)
    (w : World) : Bool × World :=
  dfiAux oracle url (max_retries + 1 - retry_count) output_path retry_count
    max_retries w

/-- Decimal digit character, 0 ≤ d ≤ 9 mapped to '0'..'9'. -/
def digitChar (d : Nat) : Char := Char.ofNat (48 + d)

/-- Decimal representation, by structural recursion on a fuel bounding the
number of digits (n itself is always enough). -/
def natDecimalAux : Nat → Nat → Str
  | 0, n => [digitChar n]
  | fuel + 1, n =>
    if n < 10 then [digitChar n]
    else natDecimalAux fuel (n / 10) ++ [digitChar (n % 10)]

/-- Model of Python str(int) for a nonnegative integer: the usual decimal
representation. -/
def natDecimal (n : Nat) : Str := natDecimalAux n n

/-- Model of re.sub removing HTML tags, by structural recursion on a fuel
bounding the input length: every segment from a < up to the next > is
deleted; a < with no later > is kept. -/
def stripHtmlAux : Nat → Str → Str
  | 0, s => s
  | fuel + 1, s =>
    match s with
    | [] => []
    | '<' :: rest =>
      let inner := rest.takeWhile (fun c => c ≠ '>')
      if inner.length < rest.length then
        stripHtmlAux fuel (rest.drop (inner.length + 1))
      else '<' :: stripHtmlAux fuel rest
    | c :: rest => c :: stripHtmlAux fuel rest

/-- Model of re.sub removing HTML tags from the description. -/
def stripHtml (s : Str) : Str := stripHtmlAux s.length s

/-- A file entry of a model version as read from the API JSON. -/
structure FileEntry where
  name : Str
  downloadUrl : Str
deriving DecidableEq

/-- An image entry of a model version; a missing id is modelled as none
(the code uses the falsy default value for it). -/
structure ImageEntry where
  id : Option Nat
  url : Str
deriving DecidableEq

/-- A model version as consumed by download_model_files; baseModel is read
by process_username and injected into the item. -/
structure ModelVersion where
  files : List FileEntry
  images : List ImageEntry
  trainedWords : List Str
  baseModel : Option Str
deriving DecidableEq

/-- A catalog item as consumed by download_model_files, with the version's
baseModel already injected by process_username. -/
structure Item where
  id : Nat
  name : Str
  itemType : Option Str
  description : Str
  baseModel : Option Str
deriving DecidableEq

/-- The run configuration relevant to the embedded functions. -/
structure Config where
  token : Str
  uname : Str
  max_retries : Nat

/-- The module constant OUTPUT_DIR. -/
def OUTPUT_DIR : Str := "model_downloads".data

/-- The module constant MAX_PATH_LENGTH. -/
def MAX_PATH_LENGTH : Nat := 200

/-- The subfolder chosen for a file in download_model_files, from the file
name's extension and the item's type field. -/
def subfolderFor (itemType : Option Str) (file_name : Str) : Str :=
  if ".zip".data.isSuffixOf file_name then
    if itemType = some "LORA".data then "Lora".data
    else if itemType = some "Training_Data".data then "Training_Data".data
    else "Other".data
  else if ".safetensors".data.isSuffixOf file_name then
    match itemType with
    | some t =>
      if t = "Checkpoint".data then "Checkpoints".data
      else if t = "TextualInversion".data then "Embeddings".data
      else if t = "VAE".data ∨ t = "LoCon".data then "Other".data
      else "Lora".data
    | none => "Lora".data
  else if ".pt".data.isSuffixOf file_name then
    if itemType = some "TextualInversion".data then "Embeddings".data
    else "Other".data
  else "Other".data

/-- Whether the per-file filter of download_model_files skips this file. -/
def fileFiltered (download_type exclude_type : Option Str) (sub : Str) : Bool :=
  match download_type with
  | some dt => dt ≠ "All".data ∧ sub ≠ dt
  | none =>
    match exclude_type with
    | some et => sub = et
    | none => false

/-- Appending to a file (mode "a"): grow it, creating it if missing. -/
def appendDisk (d : List (Str × Nat)) (p : Str) (n : Nat) : List (Str × Nat) :=
  if d.any (fun e => e.1 = p) then
    d.map (fun e => if e.1 = p then (e.1, e.2 + n) else e)
  else (p, n) :: d

/-- The size of the triggerWords.txt contents: one line per word. -/
def triggerWordsSize (ws : List Str) : Nat :=
  (ws.map (fun t => t.length + 1)).sum

/-- The state threaded through the file loop of download_model_files: the
world, the downloaded flag, the last computed item_dir, and the Python loop
variables file_name and subfolder that leak into the image loop. -/
structure DmfState where
  w : World
  downloaded : Bool
  item_dir : Option Str
  last_file_name : Str
  last_subfolder : Str

/-- The item directory computed by download_model_files: an extra
baseModel level when the item carries a truthy baseModel. -/
def dmfItemDir (cfg : Config) (item : Item) (sub lbl : Str) : Str :=
  if optTruthy item.baseModel then
    pjoin (pjoin (pjoin (pjoin OUTPUT_DIR cfg.uname) sub)
      (item.baseModel.getD [])) lbl
  else
    pjoin (pjoin (pjoin OUTPUT_DIR cfg.uname) sub) lbl

/-- One iteration of the file loop of download_model_files. -/
def dmfFileStep (net : Str → Nat → AttemptOutcome) (cfg : Config)
    (download_type exclude_type : Option Str) (item : Item)
    (trainedWords : List Str) (item_name_sanitized model_url : Str)
    (st : DmfState) (file : FileEntry) : DmfState :=
  let file_name := file.name
  let file_url := file.downloadUrl
  let sub := subfolderFor item.itemType file_name
  let st := { st with last_file_name := file_name, last_subfolder := sub }
  if fileFiltered download_type exclude_type sub then st
  else
    let item_dir := dmfItemDir cfg item sub item_name_sanitized
    let descPath := pjoin item_dir "description.txt".data
    let w := { st.w with
      disk := writeDisk st.w.disk descPath (stripHtml item.description).length }
    let twPath := pjoin item_dir "triggerWords.txt".data
    let w := { w with
      disk := writeDisk w.disk twPath (triggerWordsSize trainedWords) }
    let file_url2 :=
      if file_url.contains '?' then
        file_url ++ "&token=".data ++ cfg.token ++ "&nsfw=true".data
      else
        file_url ++ "?token=".data ++ cfg.token ++ "&nsfw=true".data
    let fns := sanitize_name file_name (some item.name) MAX_PATH_LENGTH
      (some sub) none none
    let file_path := pjoin item_dir fns
    if file_name = [] ∨ file_url2 = [] then
      { st with w := w, item_dir := some item_dir }
    else
      let res := download_file_or_image (net file_url2) file_url2 file_path 0
        cfg.max_retries w
      let st2 : DmfState :=
        if res.1 then
          { st with w := res.2, downloaded := true, item_dir := some item_dir }
        else
          { st with
            w := { res.2 with
              failedRecords := res.2.failedRecords ++ [(item.name, file_url2)] },
            item_dir := some item_dir }
      let detailsPath := pjoin item_dir "details.txt".data
      let detailsLen :=
        "Model URL: ".length + model_url.length + 1 +
        "File Name: ".length + file_name.length + 1 +
        "File URL: ".length + file_url2.length + 1
      { st2 with
        w := { st2.w with disk := appendDisk st2.w.disk detailsPath detailsLen } }

/-- One iteration of the image loop of download_model_files. -/
def dmfImageStep (net : Str → Nat → AttemptOutcome) (cfg : Config)
    (item_name item_dir last_file_name last_subfolder : Str)
    (acc : World × Bool) (image : ImageEntry) : World × Bool :=
  let idStr := match image.id with | none => [] | some n => natDecimal n
  let raw := item_name ++ ['_'] ++ idStr ++ "_for_".data ++
    last_file_name ++ ".jpeg".data
  let sanitized := sanitize_name raw (some item_name) MAX_PATH_LENGTH
    (some last_subfolder) none none
  let image_path := pjoin item_dir sanitized
  let idTruthy := match image.id with | none => false | some n => n ≠ 0
  if idTruthy = false ∨ image.url = [] then acc
  else
    let res := download_file_or_image (net image.url) image.url image_path 0
      cfg.max_retries acc.1
    let acc2 : World × Bool :=
      if res.1 then (res.2, true)
      else
        ({ res.2 with
          failedRecords := res.2.failedRecords ++ [(item_name, image.url)] },
         acc.2)
    let detailsPath := pjoin item_dir "details.txt".data
    let detailsLen :=
      "Image ID: ".length + idStr.length + 1 +
      "Image URL: ".length + image.url.length + 1
    ({ acc2.1 with disk := appendDisk acc2.1.disk detailsPath detailsLen },
     acc2.2)

/-- The folder label of an item: sanitize_name applied to the model name
with the decimal item id prepended (f-string model_id - item_name). -/
def itemLabel (id : Nat) (name : Str) : Str :=
  sanitize_name (natDecimal id ++ " - ".data ++ name) none MAX_PATH_LENGTH
    none none none

/-- Embedding of download_model_files: processes the files and then the
images of one model version, returning the item name, the downloaded flag
and the final world. -/
def download_model_files (net : Str → Nat → AttemptOutcome) (cfg : Config)
    (download_type exclude_type : Option Str) (item : Item)
    (version : ModelVersion) (w : World) : (Str × Bool) × World :=
  let model_url := "https://civitai.com/models/".data ++ natDecimal item.id
  let item_name_sanitized := itemLabel item.id item.name
  let st0 : DmfState := ⟨w, false, none, [], []⟩
  let st1 := version.files.foldl
    (dmfFileStep net cfg download_type exclude_type item version.trainedWords
      item_name_sanitized model_url) st0
  match st1.item_dir with
  | none => ((item.name, st1.downloaded), st1.w)
  | some idir =>
    let res := version.images.foldl
      (dmfImageStep net cfg item.name idir st1.last_file_name
        st1.last_subfolder) (st1.w, st1.downloaded)
    ((item.name, res.2), res.1)

/-- One page of the models API response: the items (with their versions)
and the metadata dictionary, modelled as an association list. -/
structure ApiPage where
  items : List (Item × List ModelVersion)
  metadata : List (Str × Str)

/-- dict.get on the modelled metadata dictionary. -/
def lookupStr (m : List (Str × Str)) (k : Str) : Option Str :=
  match m.find? (fun e => e.1 = k) with
  | none => none
  | some e => some e.2

/-- The initial query URL built by both fetch_all_models and
process_username (urlencode is modelled as plain splicing, which is exact
for the identifiers used here). -/
def initialUrl (uname token : Str) : Str :=
  "https://civitai.com/api/v1/models?username=".data ++ uname ++
  "&token=".data ++ token ++ "&nsfw=true".data

/-- The literal loop-exit test of fetch_all_models:
next_page and next_page == first_next_page and next_page != next_page
or not metadata. The middle comparison next_page != next_page is
transcribed exactly as written in the source. -/
def faBreakCond (np fnp : Option Str) (metadata : List (Str × Str)) : Bool :=
  (optTruthy np ∧ np = fnp ∧ np ≠ np) ∨ metadata = []

/-- Result of a bounded observation of the fetch_all_models pagination
loop: either the loop halted (having fetched the given number of pages)
or it was still running when the observation fuel ran out. -/
inductive FAResult where
  | done (pagesFetched : Nat)
  | outOfFuel
deriving DecidableEq

/-- Embedding of the pagination loop of fetch_all_models. The oracle get
maps a page URL to its (decoded) response. Categorisation of the returned
items only writes the summary file and never affects control flow, so the
loop is observed through the number of pages it fetches. -/
def fetch_all_models_loop (get : Str → ApiPage) :
    Nat → Option Str → Option Str → Nat → FAResult
  | 0, _, _, _ => .outOfFuel
  | fuel + 1, next_page, first_next_page, count =>
    match next_page with
    | none => .done count
    | some url =>
      if url = [] then .done count
      else
        let page := get url
        let np2 := lookupStr page.metadata "nextPage".data
        let fnp2 := if first_next_page = none then np2 else first_next_page
        if faBreakCond np2 fnp2 page.metadata then .done (count + 1)
        else fetch_all_models_loop get fuel np2 fnp2 (count + 1)

/-- Outcome of one catalog page request in process_username. -/
inductive FetchOutcome where
  | ok (page : ApiPage)
  | err
deriving Inhabited

/-- Embedding of the inner retry loop of process_username (attempt index,
retry_count and max_retries). none models the call to exit() after the
retries are exhausted (and also the crash on an unbound data variable when
max_retries = 0). -/
def catRetryAux (catNet : Nat → FetchOutcome) :
    Nat → Nat → Nat → Nat → Option (ApiPage × Nat)
  | 0, _, _, _ => none
  | fuel + 1, idx, retry_count, max_retries =>
    if retry_count < max_retries then
      match catNet idx with
      | .ok page => some (page, idx + 1)
      | .err =>
        if retry_count + 1 < max_retries then
          catRetryAux catNet fuel (idx + 1) (retry_count + 1) max_retries
        else none
    else none

/-- The retry loop run with its exact iteration bound as fuel (the loop
advances retry_count towards max_retries, and both the fuel-exhausted case
and the loop-condition-false case answer none, i.e. exit()). -/
def catalogRetryLoop (catNet : Nat → FetchOutcome)
    (idx retry_count max_retries : Nat) : Option (ApiPage × Nat) :=
  catRetryAux catNet (max_retries - retry_count) idx retry_count
    max_retries

/-- The per-page download fan-out of process_username: items deduplicated
by name within the page, then every version of each item is passed to
download_model_files with the version's baseModel injected. The worker
pool is modelled by its sequential semantics (the orchestrator waits for
every submitted task before the next page). -/
def processPageItems (net : Str → Str → Nat → AttemptOutcome) (cfg : Config)
    (download_type exclude_type : Option Str)
    (items : List (Item × List ModelVersion)) (w : World) : World :=
  (items.foldl (fun acc it =>
    if it.1.name ∈ acc.1 then acc
    else
      (it.1.name :: acc.1,
       it.2.foldl (fun wv version =>
         (download_model_files (net it.1.name) cfg download_type exclude_type
           { it.1 with baseModel := version.baseModel } version wv).2) acc.2))
    (([] : List Str), w)).2

/-- Result of a bounded observation of one process_username run. -/
inductive UserOutcome where
  | finished (w : World)
  | exited (w : World)
  | outOfFuel (w : World)
deriving DecidableEq

/-- Whether a run ended in the exit() call. -/
def isExitedOutcome : UserOutcome → Bool
  | .exited _ => true
  | _ => false

/-- Embedding of the pagination loop of process_username: fetch a page with
the bounded retry loop (exiting the process on exhaustion), stop when
next_page is None or when metadata and items are both empty, otherwise
download the page's content and continue. -/
def process_username_pages (catNet : Nat → FetchOutcome)
    (net : Str → Str → Nat → AttemptOutcome) (cfg : Config)
    (download_type exclude_type : Option Str) :
    Nat → Option Str → Option Str → Nat → World → UserOutcome
  | 0, _, _, _, w => .outOfFuel w
  | fuel + 1, next_page, first_next_page, idx, w =>
    match next_page with
    | none => .finished w
    | some _ =>
      match catalogRetryLoop catNet idx 0 cfg.max_retries with
      | none => .exited w
      | some (page, idx2) =>
        let np2 := lookupStr page.metadata "nextPage".data
        if page.metadata = [] ∧ page.items = [] then .finished w
        else
          let fnp2 := if first_next_page = none then np2 else first_next_page
          let w2 := processPageItems net cfg download_type exclude_type
            page.items w
          process_username_pages catNet net cfg download_type exclude_type
            fuel np2 fnp2 idx2 w2

/-- Embedding of process_username for one creator: the fetch_all_models
catalog walk, then the truncation of the failed-downloads file, then the
page/download loop. -/
def process_username_model (getFA : Str → ApiPage)
    (catNet : Nat → FetchOutcome) (net : Str → Str → Nat → AttemptOutcome)
    (token : Str) (max_retries : Nat) (uname : Str)
    (download_type exclude_type : Option Str) (fuel : Nat) (w : World) :
    UserOutcome :=
  match fetch_all_models_loop getFA fuel (some (initialUrl uname token))
      none 0 with
  | .outOfFuel => .outOfFuel w
  | .done _ =>
    let w1 : World := { w with failedRecords := [] }
    process_username_pages catNet net ⟨token, uname, max_retries⟩
      download_type exclude_type fuel (some (initialUrl uname token))
      none 0 w1

/-- Result of the top-level loop over the given usernames: which creators
were reached, and whether the process was terminated by exit(). -/
inductive MainResult where
  | completed (processed : List Str) (w : World)
  | exitedAt (processed : List Str) (w : World)
  | outOfFuel (processed : List Str) (w : World)
deriving DecidableEq

/-- Embedding of the script entry point: process each username in order;
a call to exit() terminates the whole process, so no later username is
processed. -/
def mainRun (getFA : Str → Str → ApiPage) (catNet : Str → Nat → FetchOutcome)
    (net : Str → Str → Str → Nat → AttemptOutcome) (token : Str)
    (max_retries : Nat) (download_type exclude_type : Option Str)
    (usernames : List Str) (fuel : Nat) (w : World) : MainResult :=
  match usernames with
  | [] => .completed [] w
  | u :: rest =>
    match process_username_model (getFA u) (catNet u) (net u) token
        max_retries u download_type exclude_type fuel w with
    | .finished w2 =>
      match mainRun getFA catNet net token max_retries download_type
          exclude_type rest fuel w2 with
      | .completed ps w3 => .completed (u :: ps) w3
      | .exitedAt ps w3 => .exitedAt (u :: ps) w3
      | .outOfFuel ps w3 => .outOfFuel (u :: ps) w3
    | .exited w2 => .exitedAt [u] w2
    | .outOfFuel w2 => .outOfFuel [u] w2

/-- Boolean statement that a string holds no illegal or control character. -/
def noIllegal (s : Str) : Bool := s.all (fun c => ! illegalChar c)

/-- Concrete scenario for C6: the image URL answers 404, every other URL
answers a successful 5 MiB octet-stream response. -/
def netScenario404 : Str → Nat → AttemptOutcome := fun url _ =>
  if url = "http://img".data then .success ⟨404, [], 0⟩
  else .success ⟨200, "application/octet-stream".data, 5 * 1024 * 1024⟩

/-- Concrete scenario for C6: a LORA item with one model file and one
image. -/
def itemScenario404 : Item :=
  ⟨7, "Thing".data, some "LORA".data, [], none⟩

/-- Concrete scenario for C6: the single version of the item. -/
def verScenario404 : ModelVersion :=
  ⟨[⟨"thing.safetensors".data, "http://f1".data⟩],
   [⟨some 5, "http://img".data⟩], [], none⟩

/-- The empty world: empty disk, no requests, no log records. -/
def emptyWorld : World := ⟨[], 0, 0, []⟩

/-- Concrete run configuration used by the closed scenarios. -/
def cfgScenario : Config := ⟨"tok".data, "alice".data, 3⟩

/-- Whether result is what s.rsplit(sep,1)[0] promises for sep = the
underscore: when s holds an underscore, result is the part of s before its
last underscore (and the part after it holds no further underscore);
otherwise result is s itself. -/
def cutsAtLastSep (s result : Str) : Bool :=
  if s.contains '_' then
    decide (s = result ++ '_' :: s.drop (result.length + 1)) &&
    ! (s.drop (result.length + 1)).contains '_'
  else decide (result = s)

/-- C7 scenario oracle: every catalog page request raises. -/
def catNetAlwaysErr : Str → Nat → FetchOutcome := fun _ _ => .err

/-- C7 scenario oracle: every download attempt raises. -/
def netAlwaysErr : Str → Str → Str → Nat → AttemptOutcome :=
  fun _ _ _ _ => .netError

/-- C7 scenario oracle for fetch_all_models: every page answers with no
items and empty metadata, so the summary walk stops after one page. -/
def getFAEmptyMeta : Str → Str → ApiPage := fun _ _ => ⟨[], []⟩

/-- C8 scenario oracle: every download succeeds with a large
octet-stream body. -/
def netAllOk : Str → Nat → AttemptOutcome :=
  fun _ _ => .success ⟨200, "application/octet-stream".data,
    5 * 1024 * 1024⟩

/-- The decimal digit characters. -/
def digitChars : Str := "0123456789".data

/-! ### List helper lemmas -/

theorem takeWhile_append_all {p : Char → Bool} {a : Str} (b : Str)
    (h : ∀ c ∈ a, p c = true) :
    (a ++ b).takeWhile p = a ++ b.takeWhile p := by
  induction a with
  | nil => simp
  | cons c t ih =>
    have hc := h c (by simp)
    simp only [List.cons_append, List.takeWhile_cons, hc, if_true]
    rw [ih (fun x hx => h x (by simp [hx]))]

theorem takeWhile_append_stop {p : Char → Bool} {a : Str} (b : Str)
    (h : ∃ c ∈ a, p c = false) :
    (a ++ b).takeWhile p = a.takeWhile p := by
  induction a with
  | nil => rcases h with ⟨c, hc, _⟩; simp at hc
  | cons c t ih =>
    by_cases hc : p c = true
    · simp only [List.cons_append, List.takeWhile_cons, hc, if_true]
      rcases h with ⟨d, hd, hdp⟩
      rcases List.mem_cons.mp hd with rfl | hdt
      · rw [hc] at hdp; cases hdp
      · rw [ih ⟨d, hdt, hdp⟩]
    · have hc2 : p c = false := by simpa using hc
      simp [List.takeWhile_cons, hc2]

theorem dropWhile_append_all {p : Char → Bool} {a : Str} (b : Str)
    (h : ∀ c ∈ a, p c = true) :
    (a ++ b).dropWhile p = b.dropWhile p := by
  induction a with
  | nil => simp
  | cons c t ih =>
    have hc := h c (by simp)
    simp only [List.cons_append, List.dropWhile_cons, hc, if_true]
    exact ih (fun x hx => h x (by simp [hx]))

theorem dropWhile_append_stop {p : Char → Bool} {a : Str} (b : Str)
    (h : ∃ c ∈ a, p c = false) :
    (a ++ b).dropWhile p = a.dropWhile p ++ b := by
  induction a with
  | nil => rcases h with ⟨c, hc, _⟩; simp at hc
  | cons c t ih =>
    by_cases hc : p c = true
    · simp only [List.cons_append, List.dropWhile_cons, hc, if_true]
      rcases h with ⟨d, hd, hdp⟩
      rcases List.mem_cons.mp hd with rfl | hdt
      · rw [hc] at hdp; cases hdp
      · rw [ih ⟨d, hdt, hdp⟩]
    · have hc2 : p c = false := by simpa using hc
      simp [List.dropWhile_cons, hc2]

theorem mem_of_mem_dropWhile {p : Char → Bool} {l : Str} {c : Char}
    (h : c ∈ l.dropWhile p) : c ∈ l :=
  (List.dropWhile_sublist p).subset h

theorem mem_of_mem_takeWhile {p : Char → Bool} {l : Str} {c : Char}
    (h : c ∈ l.takeWhile p) : c ∈ l :=
  (List.takeWhile_sublist p).subset h

theorem mem_of_mem_stripChars {set l : Str} {c : Char}
    (h : c ∈ stripChars set l) : c ∈ l := by
  unfold stripChars at h
  rw [List.mem_reverse] at h
  have h2 := mem_of_mem_dropWhile h
  rw [List.mem_reverse] at h2
  exact mem_of_mem_dropWhile h2

theorem mem_of_mem_stripWs {l : Str} {c : Char}
    (h : c ∈ stripWs l) : c ∈ l := by
  unfold stripWs at h
  rw [List.mem_reverse] at h
  have h2 := mem_of_mem_dropWhile h
  rw [List.mem_reverse] at h2
  exact mem_of_mem_dropWhile h2

theorem mem_of_mem_collapseAux {c : Char} :
    ∀ (l : Str) (b : Bool), c ∈ collapseAux b l → c ∈ l := by
  intro l
  induction l with
  | nil => intro b h; rw [collapseAux] at h; cases h
  | cons d t ih =>
    intro b h
    rw [collapseAux] at h
    split at h
    · rename_i hd
      split at h
      · exact List.mem_cons_of_mem _ (ih true h)
      · rcases List.mem_cons.mp h with rfl | h2
        · rw [hd]; simp
        · exact List.mem_cons_of_mem _ (ih true h2)
    · rcases List.mem_cons.mp h with rfl | h2
      · simp
      · exact List.mem_cons_of_mem _ (ih false h2)

theorem mem_of_mem_collapseUnderscores {l : Str} {c : Char}
    (h : c ∈ collapseUnderscores l) : c ∈ l :=
  mem_of_mem_collapseAux l false h

theorem mem_of_mem_rsplitBeforeLast {sep : Char} {l : Str} {c : Char}
    (h : c ∈ rsplitBeforeLast sep l) : c ∈ l := by
  simp only [rsplitBeforeLast] at h
  split at h
  · exact h
  · rw [List.mem_reverse] at h
    have := List.mem_of_mem_drop h
    rwa [List.mem_reverse] at this

theorem mem_of_mem_pySliceTo {l : Str} {k : Int} {c : Char}
    (h : c ∈ pySliceTo l k) : c ∈ l := by
  unfold pySliceTo at h
  split at h
  · exact List.mem_of_mem_take h
  · exact List.mem_of_mem_take h

theorem stripWs_length_le (l : Str) : (stripWs l).length ≤ l.length := by
  unfold stripWs
  calc ((l.dropWhile Char.isWhitespace).reverse.dropWhile
          Char.isWhitespace).reverse.length
      = ((l.dropWhile Char.isWhitespace).reverse.dropWhile
          Char.isWhitespace).length := List.length_reverse _
    _ ≤ (l.dropWhile Char.isWhitespace).reverse.length :=
        (List.dropWhile_sublist _).length_le
    _ = (l.dropWhile Char.isWhitespace).length := List.length_reverse _
    _ ≤ l.length := (List.dropWhile_sublist _).length_le

theorem rsplitBeforeLast_length_le (sep : Char) (l : Str) :
    (rsplitBeforeLast sep l).length ≤ l.length := by
  simp only [rsplitBeforeLast]
  split
  · exact le_refl _
  · rw [List.length_reverse, List.length_drop, List.length_reverse]
    omega

theorem pySliceTo_length_le_of_nonneg (l : Str) (k : Int) (hk : 0 ≤ k) :
    (pySliceTo l k).length ≤ k.toNat := by
  unfold pySliceTo
  rw [if_pos hk]
  simp


/-! ### C4: characters of the sanitized output -/
theorem mem_sanitizeBase_legal (name : Str) (fn : Option Str) {c : Char}
    (hc : c ∈ sanitizeBase name fn) : illegalChar c = false := by
  simp only [sanitizeBase] at hc
  have h3 := mem_of_mem_collapseUnderscores (mem_of_mem_stripChars hc)
  revert h3
  generalize (if optTruthy fn then
      stripChars ['_'] (deleteOccs (fn.getD []) (splitext name).1)
    else (splitext name).1) = base1
  intro h3
  split at h3
  · have : c = '_' := by simpa using h3
    subst this
    decide
  · rcases List.mem_map.mp h3 with ⟨a, _, ha⟩
    by_cases hia : illegalChar a = true
    · rw [hia] at ha
      simp at ha
      subst ha
      decide
    · rw [Bool.not_eq_true] at hia
      rw [hia] at ha
      simp at ha
      subst ha
      exact hia

/-- C4 (counterexample): the claim fails as stated. For the input name
a<b given with folder-name context a<b, the early-return branch of
sanitize_name returns the name unchanged, so the output still contains
the illegal character <. -/
theorem c4_sanitize_illegal_counterexample :
    sanitize_name "a<b".data (some "a<b".data) 200 none none none
      = "a<b".data ∧
    noIllegal (sanitize_name "a<b".data (some "a<b".data) 200 none none
      none) = false := by
  constructor
  · decide
  · decide

/-- C4 (amended): whenever the folder-name early-return branch of
sanitize_name is not taken and the extension split off by splitext itself
contains no illegal character, every character of the sanitize_name output
is neither one of the characters illegal in file names nor a control
character. (The code never rewrites the extension, and the early-return
branch returns the raw name, so both provisos are forced.) -/
theorem c4_sanitize_legal_amended (name : Str) (fn : Option Str) (ml : Nat)
    (sf od un : Option Str)
    (hEarly : ¬ (optTruthy fn = true ∧ (splitext name).1 = fn.getD []))
    (hExt : noIllegal (splitext name).2 = true) :
    noIllegal (sanitize_name name fn ml sf od un) = true := by
  rw [noIllegal, List.all_eq_true]
  intro c hc
  simp only [sanitize_name] at hc
  rw [if_neg hEarly] at hc
  have hc2 := mem_of_mem_stripWs hc
  rw [Bool.not_eq_true']
  rcases List.mem_append.mp hc2 with hb | he
  · rcases sf with _ | sf' <;> rcases od with _ | od' <;>
      rcases un with _ | un' <;>
      simp only at hb
    all_goals
      first
      | exact mem_sanitizeBase_legal _ _ hb
      | (split at hb
         · exact mem_sanitizeBase_legal _ _
             (mem_of_mem_pySliceTo (mem_of_mem_rsplitBeforeLast hb))
         · exact mem_sanitizeBase_legal _ _ hb)
  · rw [noIllegal, List.all_eq_true] at hExt
    have := hExt c he
    simpa using this

/-- C4 (witness): the amended theorem applied at a concrete input. -/
theorem c4_sanitize_legal_witness :
    ¬ (optTruthy (some "ab".data) = true ∧
        (splitext "x<y|z".data).1 = (some "ab".data).getD []) ∧
    noIllegal (splitext "x<y|z".data).2 = true ∧
    noIllegal (sanitize_name "x<y|z".data (some "ab".data) 200 none none
      none) = true :=
  ⟨by decide, by decide,
   c4_sanitize_legal_amended _ _ _ _ _ _ (by decide) (by decide)⟩

/-! ### C1: the cursor-repeat termination check never fires -/

theorem faBreak_dead (np fnp : Option Str) (md : List (Str × Str)) :
    faBreakCond np fnp md = decide (md = []) := by
  simp [faBreakCond]

theorem initialUrl_ne_nil (uname token : Str) : initialUrl uname token ≠ [] := by
  have hA : "https://civitai.com/api/v1/models?username=".data ≠ [] := by
    decide
  unfold initialUrl
  intro h
  simp only [List.append_eq_nil] at h
  exact hA h.1.1.1.1

theorem fa_loop_const_cursor (get : Str → ApiPage) (url0 : Str)
    (hget : ∀ u, get u = ⟨[], [("nextPage".data, url0)]⟩) (h0 : url0 ≠ []) :
    ∀ fuel fnp count,
      fetch_all_models_loop get fuel (some url0) fnp count = .outOfFuel := by
  intro fuel
  induction fuel with
  | zero => intro fnp count; rfl
  | succ n ih =>
    intro fnp count
    rw [fetch_all_models_loop, if_neg h0, hget url0]
    have hlk : lookupStr [("nextPage".data, url0)] "nextPage".data
        = some url0 := by
      simp [lookupStr]
    simp only [hlk]
    rw [if_neg]
    · exact ih _ _
    · simp [faBreakCond]

theorem pu_pages_const_cursor (catNet : Nat → FetchOutcome) (url0 : Str)
    (net : Str → Str → Nat → AttemptOutcome) (cfg : Config)
    (dt et : Option Str)
    (hcat : ∀ n, catNet n = .ok ⟨[], [("nextPage".data, url0)]⟩)
    (hmr : 0 < cfg.max_retries) :
    ∀ fuel fnp idx w,
      process_username_pages catNet net cfg dt et fuel (some url0) fnp idx w
        = .outOfFuel w := by
  intro fuel
  induction fuel with
  | zero => intros; rfl
  | succ n ih =>
    intro fnp idx w
    rw [process_username_pages]
    obtain ⟨m, hm⟩ : ∃ m, cfg.max_retries = m + 1 :=
      ⟨cfg.max_retries - 1, by omega⟩
    have hcrl : catalogRetryLoop catNet idx 0 cfg.max_retries
        = some (⟨[], [("nextPage".data, url0)]⟩, idx + 1) := by
      unfold catalogRetryLoop
      rw [Nat.sub_zero, hm, catRetryAux, if_pos (by omega), hcat idx]
    rw [hcrl]
    have hlk : lookupStr [("nextPage".data, url0)] "nextPage".data
        = some url0 := by
      simp [lookupStr]
    simp only [hlk]
    rw [if_neg (by simp)]
    have hpp : processPageItems net cfg dt et [] w = w := by
      simp [processPageItems]
    rw [hpp]
    exact ih _ _ _

/-- C1 (code bug): when every fetched catalog page answers with a
nextPage cursor equal to the initial cursor (and hence nonempty metadata),
neither catalog traversal ever halts, for any amount of fuel: the source's
repeat-cursor test contains the conjunct next_page != next_page and is
therefore equivalent to the metadata-empty test alone (first conjunct),
so the fetch_all_models loop (second conjunct) and the process_username
pagination loop (third conjunct, at the concrete run configuration)
run forever instead of detecting the non-advancing cursor. -/
theorem c1_nonadvancing_cursor_loops_forever :
    (∀ np fnp md, faBreakCond np fnp md = decide (md = [])) ∧
    (∀ uname token fuel,
      fetch_all_models_loop
        (fun _ => ⟨[], [("nextPage".data, initialUrl uname token)]⟩)
        fuel (some (initialUrl uname token)) none 0 = .outOfFuel) ∧
    (∀ fuel w,
      process_username_pages
        (fun _ => .ok ⟨[], [("nextPage".data,
          initialUrl "alice".data "t".data)]⟩)
        (fun _ _ _ => .netError) ⟨"t".data, "alice".data, 3⟩ none none
        fuel (some (initialUrl "alice".data "t".data)) none 0 w
        = .outOfFuel w) := by
  refine ⟨faBreak_dead, ?_, ?_⟩
  · intro uname token fuel
    exact fa_loop_const_cursor _ _ (fun _ => rfl)
      (initialUrl_ne_nil uname token) fuel none 0
  · intro fuel w
    exact pu_pages_const_cursor _ _ _ _ _ _ (fun _ => rfl)
      (by decide) fuel none 0 w

/-! ### C2: retry bound on a permanently failing URL -/

theorem dfi_allFail (oracle : Nat → AttemptOutcome) (url p : Str)
    (hfail : ∀ n, oracle n = .netError) :
    ∀ k rc mr w, mr - rc = k → rc ≤ mr → fileExists w p = false →
      download_file_or_image oracle url p rc mr w =
        (false, World.mk w.disk (w.requests + (mr - rc) + 1)
          (w.downloadErrors + 1) w.failedRecords) := by
  intro k
  induction k with
  | zero =>
    intro rc mr w hk hle hex
    have hrc : rc = mr := by omega
    subst hrc
    unfold download_file_or_image
    rw [show rc + 1 - rc = 1 from by omega]
    rw [dfiAux]
    rw [if_neg (by simp [hex])]
    simp only [hfail rc, lt_irrefl, if_false]
    simp [Nat.sub_self]
  | succ k ih =>
    intro rc mr w hk hle hex
    have hlt : rc < mr := by omega
    unfold download_file_or_image
    rw [show mr + 1 - rc = (mr - rc) + 1 from by omega]
    rw [dfiAux]
    rw [if_neg (by simp [hex])]
    simp only [hfail rc]
    rw [if_pos hlt]
    have hex2 : fileExists (World.mk w.disk (w.requests + 1)
        w.downloadErrors w.failedRecords) p = false := hex
    have hrec := ih (rc + 1) mr (World.mk w.disk (w.requests + 1)
        w.downloadErrors w.failedRecords) (by omega) (by omega) hex2
    unfold download_file_or_image at hrec
    rw [Nat.succ_sub_succ] at hrec
    rw [hrec]
    simp only [Prod.mk.injEq, World.mk.injEq, true_and, and_true]
    omega

/-- C2 (counterexample): with the default max_retries = 3, a permanently
failing URL is attempted 4 times — one initial attempt plus three retries —
not exactly max_retries = 3 times as the claim states. -/
theorem c2_retry_count_counterexample :
    (download_file_or_image (fun _ => .netError) "http://u".data
      "a/b.bin".data 0 3 ⟨[], 0, 0, []⟩).2.requests = 4 ∧ (4 : Nat) ≠ 3 :=
  ⟨by decide, by decide⟩

/-- C2 (amended): for every URL whose download fails with a transport error
on each attempt, the download operation attempts the fetch exactly
max_retries + 1 times (the initial attempt plus max_retries retries),
appends exactly one record to the creator's download-errors log, and
returns success = false. -/
theorem c2_retry_bound_amended (oracle : Nat → AttemptOutcome)
    (url p : Str) (mr : Nat) (w : World)
    (hfail : ∀ n, oracle n = .netError)
    (hex : fileExists w p = false) :
    download_file_or_image oracle url p 0 mr w =
      (false, World.mk w.disk (w.requests + mr + 1)
        (w.downloadErrors + 1) w.failedRecords) := by
  have := dfi_allFail oracle url p hfail (mr - 0) 0 mr w rfl (by omega) hex
  simpa using this

/-- C2 (witness): the amended theorem applied at a concrete input. -/
theorem c2_retry_bound_witness :
    fileExists ⟨[], 0, 0, []⟩ "a/b.bin".data = false ∧
    download_file_or_image (fun _ => .netError) "http://u".data
      "a/b.bin".data 0 3 ⟨[], 0, 0, []⟩ =
      (false, World.mk [] 4 1 []) :=
  ⟨by decide,
   c2_retry_bound_amended (fun _ => .netError) "http://u".data
     "a/b.bin".data 3 ⟨[], 0, 0, []⟩ (fun _ => rfl) (by decide)⟩

/-! ### C3: skip-if-exists is an idempotent no-op -/

/-- C3: when the destination path already exists, the download step
returns false at once and leaves the world untouched — in particular it
issues no network request — and calling it a second time on the resulting
world does exactly the same, so the second call issues zero network
requests. -/
theorem c3_skip_if_exists (oracle : Nat → AttemptOutcome) (url p : Str)
    (rc mr : Nat) (w : World) (hex : fileExists w p = true) :
    download_file_or_image oracle url p rc mr w = (false, w) ∧
    download_file_or_image oracle url p rc mr
      (download_file_or_image oracle url p rc mr w).2 = (false, w) := by
  have h1 : download_file_or_image oracle url p rc mr w = (false, w) := by
    unfold download_file_or_image
    cases h : mr + 1 - rc with
    | zero => rw [dfiAux]
    | succ n => rw [dfiAux, if_pos (by simp [hex])]
  exact ⟨h1, by rw [h1]; exact h1⟩

/-- C3 (witness): the theorem applied at a concrete input. -/
theorem c3_skip_if_exists_witness :
    fileExists ⟨[("a/b.jpg".data, 10)], 5, 0, []⟩ "a/b.jpg".data = true ∧
    download_file_or_image (fun _ => .netError) "http://u".data
        "a/b.jpg".data 0 3 ⟨[("a/b.jpg".data, 10)], 5, 0, []⟩ =
      (false, ⟨[("a/b.jpg".data, 10)], 5, 0, []⟩) ∧
    download_file_or_image (fun _ => .netError) "http://u".data
        "a/b.jpg".data 0 3
        (download_file_or_image (fun _ => .netError) "http://u".data
          "a/b.jpg".data 0 3 ⟨[("a/b.jpg".data, 10)], 5, 0, []⟩).2 =
      (false, ⟨[("a/b.jpg".data, 10)], 5, 0, []⟩) :=
  ⟨by decide,
   (c3_skip_if_exists (fun _ => .netError) "http://u".data "a/b.jpg".data
     0 3 ⟨[("a/b.jpg".data, 10)], 5, 0, []⟩ (by decide)).1,
   (c3_skip_if_exists (fun _ => .netError) "http://u".data "a/b.jpg".data
     0 3 ⟨[("a/b.jpg".data, 10)], 5, 0, []⟩ (by decide)).2⟩

/-! ### C5: the undersized-safetensors heuristic never fires -/

/-- C5 (code bug): a completed download of a .safetensors model file of
2 MiB — smaller than the 4 MiB minimum — is accepted as an immediate
success: one single request, no retry, no failure record, the undersized
file left on disk. The integrity check tests output_path.endswith with
the singular spelling .safetensor, which never matches the .safetensors
files the program actually downloads, so the claimed retry behaviour is
unreachable for them. -/
theorem c5_undersized_safetensors_accepted :
    download_file_or_image (fun _ => .success ⟨200,
        "application/octet-stream".data, 2 * 1024 * 1024⟩)
      "http://u".data "model_downloads/u/Lora/1 - M/m.safetensors".data 0 3
      emptyWorld =
      (true, ⟨[("model_downloads/u/Lora/1 - M/m.safetensors".data,
        2 * 1024 * 1024)], 1, 0, []⟩) ∧
    2 * 1024 * 1024 < 4 * 1024 * 1024 ∧
    ".safetensors".data.isSuffixOf
      "model_downloads/u/Lora/1 - M/m.safetensors".data = true :=
  ⟨by decide, by decide, by decide⟩

/-! ### C6: 404 is terminal, recorded, and not fatal -/

/-- C6: a response with status 404 makes the download operation return
false after exactly one request — no retry, no download-errors record —
and (second part, the concrete scenario of the spec) the caller
download_model_files records exactly one failure for the 404 image URL and
returns normally with downloaded = true for the remaining successful
file. -/
theorem c6_404_terminal_skip (oracle : Nat → AttemptOutcome) (url p : Str)
    (rc mr : Nat) (w : World) (r : Response)
    (hrc : rc ≤ mr) (hor : oracle rc = .success r) (hst : r.status = 404)
    (hex : fileExists w p = false) :
    download_file_or_image oracle url p rc mr w =
      (false, World.mk w.disk (w.requests + 1) w.downloadErrors
        w.failedRecords) ∧
    ((download_model_files netScenario404 cfgScenario (some "All".data)
        none itemScenario404 verScenario404 emptyWorld).1.2 = true ∧
     (download_model_files netScenario404 cfgScenario (some "All".data)
        none itemScenario404 verScenario404 emptyWorld).2.failedRecords =
       [("Thing".data, "http://img".data)] ∧
     (download_model_files netScenario404 cfgScenario (some "All".data)
        none itemScenario404 verScenario404 emptyWorld).2.downloadErrors
       = 0) := by
  constructor
  · unfold download_file_or_image
    rw [show mr + 1 - rc = (mr - rc) + 1 from by omega]
    rw [dfiAux]
    rw [if_neg (by simp [hex])]
    simp only [hor]
    rw [if_pos hst]
  · exact ⟨by decide, by decide, by decide⟩

/-- C6 (witness): the theorem applied at a concrete input. -/
theorem c6_404_terminal_skip_witness :
    (0 : Nat) ≤ 3 ∧
    (fun _ : Nat => AttemptOutcome.success ⟨404, [], 0⟩) 0
      = .success ⟨404, [], 0⟩ ∧
    (Response.mk 404 [] 0).status = 404 ∧
    fileExists emptyWorld "a/x.jpeg".data = false ∧
    download_file_or_image (fun _ => .success ⟨404, [], 0⟩)
      "http://u".data "a/x.jpeg".data 0 3 emptyWorld =
      (false, World.mk [] 1 0 []) :=
  ⟨by decide, rfl, by decide, by decide,
   (c6_404_terminal_skip (fun _ => .success ⟨404, [], 0⟩) "http://u".data
     "a/x.jpeg".data 0 3 emptyWorld ⟨404, [], 0⟩ (by decide) rfl (by decide)
     (by decide)).1⟩

/-! ### C9: the path-length budget -/

theorem drop_takeWhile_length (p : Char → Bool) (l : Str) :
    l.drop (l.takeWhile p).length = l.dropWhile p := by
  induction l with
  | nil => rfl
  | cons c t ih =>
    by_cases hc : p c = true
    · simp [List.takeWhile_cons, List.dropWhile_cons, hc, ih]
    · have hc2 : p c = false := by simpa using hc
      simp [List.takeWhile_cons, List.dropWhile_cons, hc2]

theorem dropWhile_head_false {p : Char → Bool} :
    ∀ {l : Str} {c : Char} {t : Str}, l.dropWhile p = c :: t → p c = false := by
  intro l
  induction l with
  | nil => intro c t h; cases h
  | cons d r ih =>
    intro c t h
    rw [List.dropWhile_cons] at h
    split at h
    · exact ih h
    · rename_i hd
      cases h
      simpa using hd

/-- The helper used by the truncation branch cuts exactly at the last
underscore when one exists, and is the identity otherwise. -/
theorem rsplit_cuts (s : Str) :
    cutsAtLastSep s (rsplitBeforeLast '_' s) = true := by
  unfold cutsAtLastSep rsplitBeforeLast
  by_cases hcon : s.contains '_' = true
  · rw [if_pos hcon]
    have hmem : '_' ∈ s.reverse := by
      rw [List.mem_reverse]
      simpa [List.contains] using hcon
    have hne : (s.reverse.takeWhile (fun c => c ≠ '_')).length
        ≠ s.reverse.length := by
      intro hlen
      have heq : s.reverse.takeWhile (fun c => c ≠ '_') = s.reverse :=
        (List.takeWhile_prefix _).eq_of_length hlen
      have := heq ▸ hmem
      have hp := List.mem_takeWhile_imp (heq.symm ▸ hmem)
      simp at hp
    simp only [if_neg hne]
    set r := s.reverse with hr
    set aRev := r.takeWhile (fun c => c ≠ '_') with ha
    have hdw : r.drop aRev.length = r.dropWhile (fun c => c ≠ '_') :=
      drop_takeWhile_length _ r
    have hdwne : r.dropWhile (fun c => c ≠ '_') ≠ [] := by
      intro hnil
      have h5 := List.takeWhile_append_dropWhile
        (p := fun c => c ≠ '_') (l := r)
      rw [hnil, List.append_nil] at h5
      exact hne (by rw [ha, h5])
    obtain ⟨d, tail, hdt⟩ : ∃ d tail,
        r.dropWhile (fun c => c ≠ '_') = d :: tail := by
      rcases hh : r.dropWhile (fun c => c ≠ '_') with _ | ⟨d, tail⟩
      · exact absurd hh hdwne
      · exact ⟨d, tail, rfl⟩
    have hd : d = '_' := by
      have := dropWhile_head_false hdt
      simpa using this
    subst hd
    have hrdecomp : r = aRev ++ '_' :: tail := by
      conv_lhs => rw [← List.takeWhile_append_dropWhile
        (p := fun c => c ≠ '_') (l := r), hdt]
    have htail : r.drop (aRev.length + 1) = tail := by
      rw [← List.drop_drop, hdw, hdt]
      rfl
    rw [htail]
    have hs : s = tail.reverse ++ '_' :: aRev.reverse := by
      have : s = r.reverse := by rw [hr, List.reverse_reverse]
      rw [this, hrdecomp]
      simp
    have hdropfull : s.drop (tail.reverse.length + 1) = aRev.reverse := by
      rw [hs]
      rw [show tail.reverse.length + 1
          = (tail.reverse ++ ['_']).length from by simp]
      rw [show tail.reverse ++ '_' :: aRev.reverse
          = (tail.reverse ++ ['_']) ++ aRev.reverse from by simp]
      exact List.drop_left _ _
    rw [hdropfull]
    rw [Bool.and_eq_true]
    constructor
    · rw [decide_eq_true_eq]
      exact hs
    · simp only [Bool.not_eq_true']
      rw [List.contains_eq_any_beq]
      rw [List.any_eq_false]
      intro x hx
      have hxa : x ∈ aRev := by
        rw [← List.mem_reverse]; exact hx
      have hxne := List.mem_takeWhile_imp hxa
      simp only [ne_eq, decide_eq_true_eq] at hxne
      simp only [beq_iff_eq]
      intro hcontra
      exact hxne hcontra.symm
  · rw [if_neg hcon]
    have hnone : ∀ c ∈ s.reverse, (fun c => decide (c ≠ '_')) c = true := by
      intro c hcm
      rw [List.mem_reverse] at hcm
      rw [decide_eq_true_eq]
      intro hceq
      subst hceq
      exact hcon (by simpa [List.contains] using hcm)
    have hself : (s.reverse.takeWhile (fun c => c ≠ '_')) = s.reverse := by
      have h6 := takeWhile_append_all (p := fun c => c ≠ '_')
        (a := s.reverse) [] hnone
      simpa using h6
    rw [if_pos (by rw [hself])]
    simp

/-- C9 (amended): when the path-length budget branch is active (truthy
subfolder, output_dir and username), the early-return branch is not taken,
and the parent-path length plus the extension length fits below
max_length (so the computed base budget is nonnegative), the sanitize
output's length plus the parent-path length never exceeds max_length, and
the truncation cuts the base at its last remaining underscore separator
rather than mid-token when one remains (second conjunct). -/
theorem c9_length_budget_amended (name : Str) (fn : Option Str) (ml : Nat)
    (sf od un : Str)
    (hEarly : ¬ (optTruthy fn = true ∧ (splitext name).1 = fn.getD []))
    (hsf : sf ≠ []) (hod : od ≠ []) (hun : un ≠ [])
    (hbudget : (pjoin (pjoin od un) sf).length +
      (splitext name).2.length ≤ ml) :
    (sanitize_name name fn ml (some sf) (some od) (some un)).length +
      (pjoin (pjoin od un) sf).length ≤ ml ∧
    cutsAtLastSep
      (pySliceTo (sanitizeBase name fn)
        (baseBudget ml (splitext name).2 sf od un))
      (rsplitBeforeLast '_'
        (pySliceTo (sanitizeBase name fn)
          (baseBudget ml (splitext name).2 sf od un))) = true := by
  refine ⟨?_, rsplit_cuts _⟩
  simp only [sanitize_name]
  rw [if_neg hEarly]
  rw [if_pos ⟨hsf, hod, hun⟩]
  have h1 := stripWs_length_le
    (rsplitBeforeLast '_' (pySliceTo (sanitizeBase name fn)
      (baseBudget ml (splitext name).2 sf od un)) ++ (splitext name).2)
  have h2 := rsplitBeforeLast_length_le '_'
    (pySliceTo (sanitizeBase name fn)
      (baseBudget ml (splitext name).2 sf od un))
  have hnn : 0 ≤ baseBudget ml (splitext name).2 sf od un := by
    unfold baseBudget
    omega
  have h3 := pySliceTo_length_le_of_nonneg (sanitizeBase name fn)
    (baseBudget ml (splitext name).2 sf od un) hnn
  rw [List.length_append] at h1
  have hk : (baseBudget ml (splitext name).2 sf od un).toNat
      = ml - (splitext name).2.length - (pjoin (pjoin od un) sf).length := by
    unfold baseBudget
    omega
  omega

/-- C9 (counterexample): the claim fails as stated. With a 61-character
extension and a 162-character parent path, the budget
200 - 61 - 162 is negative; the Python slice with a negative bound keeps
the extension whole, and the resulting output plus parent path is 223
characters, exceeding the 200-character maximum. -/
theorem c9_length_budget_counterexample :
    (sanitize_name ("b.".data ++ List.replicate 60 'x') none 200
        (some (List.replicate 30 's')) (some (List.replicate 100 'd'))
        (some (List.replicate 30 'u'))).length +
      (pjoin (pjoin (List.replicate 100 'd') (List.replicate 30 'u'))
        (List.replicate 30 's')).length = 223 ∧
    ¬ (223 ≤ 200) := ⟨by decide, by decide⟩

/-- C9 (witness): the amended theorem applied at a concrete input. -/
theorem c9_length_budget_witness :
    ¬ (optTruthy none = true ∧ (splitext "ab_cd.txt".data).1
        = (none : Option Str).getD []) ∧
    "s".data ≠ [] ∧ "o".data ≠ [] ∧ "u".data ≠ [] ∧
    (pjoin (pjoin "o".data "u".data) "s".data).length +
      (splitext "ab_cd.txt".data).2.length ≤ 200 ∧
    ((sanitize_name "ab_cd.txt".data none 200 (some "s".data)
        (some "o".data) (some "u".data)).length +
      (pjoin (pjoin "o".data "u".data) "s".data).length ≤ 200 ∧
     cutsAtLastSep
       (pySliceTo (sanitizeBase "ab_cd.txt".data none)
         (baseBudget 200 (splitext "ab_cd.txt".data).2 "s".data "o".data
           "u".data))
       (rsplitBeforeLast '_'
         (pySliceTo (sanitizeBase "ab_cd.txt".data none)
           (baseBudget 200 (splitext "ab_cd.txt".data).2 "s".data "o".data
             "u".data))) = true) :=
  ⟨by decide, by decide, by decide, by decide, by decide,
   c9_length_budget_amended "ab_cd.txt".data none 200 "s".data "o".data
     "u".data
     (by decide) (by decide) (by decide) (by decide) (by decide)⟩

/-! ### C10: extension correction defeats the skip check -/

theorem safetensor_not_suffix_jpg (l : Str) :
    List.isSuffixOf ".safetensor".data (l ++ ".jpg".data) = false := by
  show List.isPrefixOf (".safetensor".data.reverse)
    (l ++ ".jpg".data).reverse = false
  rw [List.reverse_append]
  rfl

theorem any_writeDisk_false {d : List (Str × Nat)} {p q : Str} {n : Nat}
    (hq : q ≠ p) (hd : d.any (fun e => e.1 = p) = false) :
    (writeDisk d q n).any (fun e => e.1 = p) = false := by
  unfold writeDisk
  rw [List.any_cons]
  rw [Bool.or_eq_false_iff]
  constructor
  · simpa using hq
  · rw [List.any_eq_false] at hd ⊢
    intro x hx
    exact hd x (List.mem_of_mem_filter hx)

theorem dfi_image_success (oracle : Nat → AttemptOutcome) (url p : Str)
    (mr : Nat) (w : World) (r : Response)
    (hor : oracle 0 = .success r) (hst : r.status < 400)
    (himg : strContains r.contentType "image".data = true)
    (hex : fileExists w p = false) :
    download_file_or_image oracle url p 0 mr w =
      (true, World.mk
        (writeDisk w.disk ((splitext p).1 ++ ".jpg".data) r.body)
        (w.requests + 1) w.downloadErrors w.failedRecords) := by
  unfold download_file_or_image
  rw [show mr + 1 - 0 = mr + 1 from rfl]
  rw [dfiAux]
  rw [if_neg (by simp [hex])]
  simp only [hor]
  rw [if_neg (by omega)]
  rw [if_neg (by omega)]
  simp only [himg, if_true]
  rw [if_neg]
  intro hcontra
  have h7 := hcontra.1
  rw [safetensor_not_suffix_jpg] at h7
  cases h7

/-- C10: the skip-if-exists check consults only the planned destination
path. When a fetch succeeds with an image content type, the file is
written under the content-type-corrected path base ++ .jpg; when that
corrected path differs from the planned one (e.g. planned .jpeg), the
planned path still does not exist afterwards, so a second call with the
same planned path performs the network fetch again (total two requests)
instead of skipping. -/
theorem c10_skip_consults_planned_path (oracle : Nat → AttemptOutcome) (url p : Str)
    (mr : Nat) (w : World) (r : Response)
    (hor : oracle 0 = .success r) (hst : r.status < 400)
    (himg : strContains r.contentType "image".data = true)
    (hex : fileExists w p = false)
    (hdif : (splitext p).1 ++ ".jpg".data ≠ p) :
    download_file_or_image oracle url p 0 mr w =
      (true, World.mk
        (writeDisk w.disk ((splitext p).1 ++ ".jpg".data) r.body)
        (w.requests + 1) w.downloadErrors w.failedRecords) ∧
    fileExists (download_file_or_image oracle url p 0 mr w).2 p = false ∧
    (download_file_or_image oracle url p 0 mr
        (download_file_or_image oracle url p 0 mr w).2).2.requests
      = w.requests + 2 := by
  have h1 := dfi_image_success oracle url p mr w r hor hst himg hex
  have hex2 : fileExists (download_file_or_image oracle url p 0 mr w).2 p
      = false := by
    rw [h1]
    exact any_writeDisk_false hdif hex
  refine ⟨h1, hex2, ?_⟩
  have h2 := dfi_image_success oracle url p mr
    (download_file_or_image oracle url p 0 mr w).2 r hor hst himg hex2
  rw [h2, h1]

/-- C10 (witness): the theorem applied at a concrete input: an image
planned as a/x.jpeg is written as a/x.jpg, and the second call fetches
again. -/
theorem c10_skip_consults_planned_path_witness :
    (fun _ : Nat => AttemptOutcome.success ⟨200, "image/jpeg".data, 999⟩) 0
      = .success ⟨200, "image/jpeg".data, 999⟩ ∧
    (200 : Nat) < 400 ∧
    strContains "image/jpeg".data "image".data = true ∧
    fileExists emptyWorld "a/x.jpeg".data = false ∧
    (splitext "a/x.jpeg".data).1 ++ ".jpg".data ≠ "a/x.jpeg".data ∧
    (download_file_or_image
      (fun _ => .success ⟨200, "image/jpeg".data, 999⟩) "http://u".data
      "a/x.jpeg".data 0 3
      (download_file_or_image
        (fun _ => .success ⟨200, "image/jpeg".data, 999⟩) "http://u".data
        "a/x.jpeg".data 0 3 emptyWorld).2).2.requests = 0 + 2 :=
  ⟨rfl, by decide, by decide, by decide, by decide,
   (c10_skip_consults_planned_path
     (fun _ => .success ⟨200, "image/jpeg".data, 999⟩) "http://u".data
     "a/x.jpeg".data 3 emptyWorld ⟨200, "image/jpeg".data, 999⟩ rfl
     (by decide) (by decide) (by decide) (by decide)).2.2⟩

/-! ### C7: failure propagation -/

theorem catRetryAux_allErr (catNet : Nat → FetchOutcome)
    (hfail : ∀ n, catNet n = .err) :
    ∀ fuel idx rc mr, catRetryAux catNet fuel idx rc mr = none := by
  intro fuel
  induction fuel with
  | zero => intros; rfl
  | succ k ih =>
    intro idx rc mr
    rw [catRetryAux]
    split
    · simp only [hfail idx]
      split
      · exact ih _ _ _
      · rfl
    · rfl

/-- C7 (counterexample): the claim fails as stated. With two creators
alice and bob, when every catalog page fetch for alice fails, the retry
exhaustion calls exit(), terminating the whole process: the run result is
exitedAt [alice], and bob — the next creator of the batch — is never
processed, contradicting the claim that processing moves to the next
creator. -/
theorem c7_exit_skips_remaining_counterexample :
    mainRun getFAEmptyMeta catNetAlwaysErr netAlwaysErr "t".data 3
      (some "All".data) none ["alice".data, "bob".data] 9 emptyWorld
      = .exitedAt ["alice".data] emptyWorld ∧
    "bob".data ∉ ["alice".data] := ⟨by decide, by decide⟩

/-- C7 (amended): exhausting retries on a single file/image download
never aborts the run — for every download oracle, as long as every catalog
page fetch succeeds, the per-creator pagination loop never reaches the
exit() outcome (first conjunct) — whereas exhausting retries on a catalog
page fetch calls exit() and terminates the whole process, so the remaining
creators of the batch are not processed: the main run ends as
exitedAt [u0] (second conjunct). -/
theorem c7_propagation_amended
    (catNet1 : Nat → FetchOutcome)
    (net1 : Str → Str → Nat → AttemptOutcome) (cfg1 : Config)
    (dt et : Option Str) (fuel1 : Nat) (np fnp : Option Str) (idx1 : Nat)
    (w1 : World)
    (getFA : Str → Str → ApiPage) (catNet : Str → Nat → FetchOutcome)
    (net : Str → Str → Str → Nat → AttemptOutcome) (token : Str)
    (mr : Nat) (u0 : Str) (rest : List Str) (fuel : Nat) (w : World)
    (hok : ∀ n, ∃ page, catNet1 n = .ok page)
    (hmr : 0 < cfg1.max_retries)
    (hga : ∀ url, (getFA u0 url).metadata = [])
    (hfail : ∀ n, catNet u0 n = .err) :
    isExitedOutcome (process_username_pages catNet1 net1 cfg1 dt et fuel1
      np fnp idx1 w1) = false ∧
    mainRun getFA catNet net token mr dt et (u0 :: rest) (fuel + 1) w
      = .exitedAt [u0] (World.mk w.disk w.requests w.downloadErrors []) := by
  constructor
  · induction fuel1 generalizing np fnp idx1 w1 with
    | zero => rfl
    | succ n ih =>
      cases np with
      | none => rfl
      | some u =>
        rw [process_username_pages]
        obtain ⟨page, hpage⟩ := hok idx1
        have hcrl : catalogRetryLoop catNet1 idx1 0 cfg1.max_retries
            = some (page, idx1 + 1) := by
          unfold catalogRetryLoop
          obtain ⟨m, hm⟩ : ∃ m, cfg1.max_retries = m + 1 :=
            ⟨cfg1.max_retries - 1, by omega⟩
          rw [Nat.sub_zero, hm, catRetryAux, if_pos (by omega), hpage]
        simp only [hcrl]
        split
        · rfl
        · exact ih _ _ _ _
  · rw [mainRun]
    have hfa : fetch_all_models_loop (getFA u0) (fuel + 1)
        (some (initialUrl u0 token)) none 0 = .done 1 := by
      rw [fetch_all_models_loop,
        if_neg (initialUrl_ne_nil u0 token)]
      rw [if_pos]
      rw [hga, faBreakCond]
      simp
    have hpum : process_username_model (getFA u0) (catNet u0) (net u0)
        token mr u0 dt et (fuel + 1) w
        = .exited (World.mk w.disk w.requests w.downloadErrors []) := by
      rw [process_username_model, hfa]
      rw [process_username_pages]
      have hnone : catalogRetryLoop (catNet u0) 0 0 mr = none := by
        unfold catalogRetryLoop
        exact catRetryAux_allErr (catNet u0) hfail _ _ _ _
      rw [hnone]
    rw [hpum]

/-- C7 (witness): the amended theorem applied at concrete inputs. -/
theorem c7_propagation_witness :
    isExitedOutcome (process_username_pages (fun _ => .ok ⟨[], []⟩)
      (netAlwaysErr "x".data) cfgScenario none none 5 (some "u".data)
      none 0 emptyWorld) = false ∧
    mainRun getFAEmptyMeta catNetAlwaysErr netAlwaysErr "t".data 3
      none none ["carol".data] 6 emptyWorld
      = .exitedAt ["carol".data] (World.mk [] 0 0 []) :=
  ⟨(c7_propagation_amended (fun _ => .ok ⟨[], []⟩) (netAlwaysErr "x".data)
      cfgScenario none none 5 (some "u".data) none 0 emptyWorld
      getFAEmptyMeta catNetAlwaysErr netAlwaysErr "t".data 3 "carol".data
      [] 5 emptyWorld (fun _ => ⟨⟨[], []⟩, rfl⟩) (by decide) (fun _ => rfl)
      (fun _ => rfl)).1,
   (c7_propagation_amended (fun _ => .ok ⟨[], []⟩) (netAlwaysErr "x".data)
      cfgScenario none none 5 (some "u".data) none 0 emptyWorld
      getFAEmptyMeta catNetAlwaysErr netAlwaysErr "t".data 3 "carol".data
      [] 5 emptyWorld (fun _ => ⟨⟨[], []⟩, rfl⟩) (by decide) (fun _ => rfl)
      (fun _ => rfl)).2⟩

/-! ### C8: the item folder label -/

theorem digitChar_mem_digitChars {d : Nat} (hd : d < 10) :
    digitChar d ∈ digitChars := by
  interval_cases d <;> decide

theorem natDecimalAux_chars :
    ∀ fuel n, (n ≤ fuel ∨ n < 10) →
      ∀ c ∈ natDecimalAux fuel n, c ∈ digitChars := by
  intro fuel
  induction fuel with
  | zero =>
    intro n hn c hc
    rw [natDecimalAux] at hc
    have hn10 : n < 10 := by omega
    rcases List.mem_singleton.mp hc with rfl
    exact digitChar_mem_digitChars hn10
  | succ k ih =>
    intro n hn c hc
    rw [natDecimalAux] at hc
    split at hc
    · rcases List.mem_singleton.mp hc with rfl
      rename_i h10
      exact digitChar_mem_digitChars h10
    · rename_i h10
      rcases List.mem_append.mp hc with h1 | h2
      · exact ih (n / 10) (by omega) c h1
      · rcases List.mem_singleton.mp h2 with rfl
        exact digitChar_mem_digitChars (Nat.mod_lt _ (by omega))

theorem natDecimal_chars (n : Nat) :
    ∀ c ∈ natDecimal n, c ∈ digitChars :=
  natDecimalAux_chars n n (Or.inl (le_refl n))

theorem natDecimalAux_ne_nil :
    ∀ fuel n, natDecimalAux fuel n ≠ [] := by
  intro fuel
  induction fuel with
  | zero => intro n h; cases h
  | succ k ih =>
    intro n h
    rw [natDecimalAux] at h
    split at h
    · cases h
    · exact absurd (List.append_eq_nil.mp h).2 (by simp)

theorem natDecimal_ne_nil (n : Nat) : natDecimal n ≠ [] :=
  natDecimalAux_ne_nil n n

theorem digitChar_toNat {d : Nat} (hd : d < 10) :
    (digitChar d).toNat = 48 + d := by
  interval_cases d <;> decide

theorem natDecimalAux_parse :
    ∀ fuel n, (n ≤ fuel ∨ n < 10) → ∀ a : Nat,
      List.foldl (fun a c => a * 10 + (c.toNat - 48)) a
          (natDecimalAux fuel n)
        = a * 10 ^ (natDecimalAux fuel n).length + n := by
  intro fuel
  induction fuel with
  | zero =>
    intro n hn a
    rw [natDecimalAux]
    have hn10 : n < 10 := by omega
    simp [List.foldl, digitChar_toNat hn10]
  | succ k ih =>
    intro n hn a
    rw [natDecimalAux]
    split
    · rename_i h10
      simp [List.foldl, digitChar_toNat h10]
    · rename_i h10
      rw [List.foldl_append]
      rw [ih (n / 10) (by omega) a]
      simp only [List.foldl, List.length_append, List.length_cons,
        List.length_nil]
      rw [digitChar_toNat (Nat.mod_lt _ (by omega))]
      have h2 : n / 10 * 10 + n % 10 = n := by omega
      rw [pow_succ, ← h2]
      ring_nf
      omega

theorem natDecimal_injective {m n : Nat}
    (h : natDecimal m = natDecimal n) : m = n := by
  have hm := natDecimalAux_parse m m (Or.inl (le_refl m)) 0
  have hn := natDecimalAux_parse n n (Or.inl (le_refl n)) 0
  unfold natDecimal at h
  rw [h] at hm
  rw [hm] at hn
  omega

theorem splitext_prefix (pre suf : Str)
    (hpre : ∀ c ∈ pre, c ≠ '.' ∧ c ≠ '/') :
    ∃ γ, (splitext (pre ++ suf)).1 = pre ++ γ := by
  have hpreSlash : ∀ c ∈ pre.reverse, (fun c => decide (c ≠ '/')) c
      = true := by
    intro c hc
    rw [List.mem_reverse] at hc
    simpa using (hpre c hc).2
  have hpreDot : ∀ c ∈ pre.reverse, (fun c => decide (c ≠ '.')) c
      = true := by
    intro c hc
    rw [List.mem_reverse] at hc
    simpa using (hpre c hc).1
  simp only [splitext]
  rw [List.reverse_append]
  by_cases hslash : ∀ c ∈ suf.reverse, (fun c => decide (c ≠ '/')) c = true
  · have h1 : (suf.reverse ++ pre.reverse).takeWhile
        (fun c => decide (c ≠ '/')) = suf.reverse ++ pre.reverse := by
      rw [takeWhile_append_all _ hslash]
      congr 1
      have h2 := takeWhile_append_all (p := fun c => decide (c ≠ '/'))
        (a := pre.reverse) [] hpreSlash
      simpa using h2
    rw [h1]
    by_cases hdot : ∀ c ∈ suf.reverse, (fun c => decide (c ≠ '.')) c = true
    · have h3 : (suf.reverse ++ pre.reverse).takeWhile
          (fun c => decide (c ≠ '.')) = suf.reverse ++ pre.reverse := by
        rw [takeWhile_append_all _ hdot]
        congr 1
        have h4 := takeWhile_append_all (p := fun c => decide (c ≠ '.'))
          (a := pre.reverse) [] hpreDot
        simpa using h4
      rw [if_pos (by rw [h3])]
      exact ⟨suf, rfl⟩
    · push_neg at hdot
      obtain ⟨cd, hcd, hcdp⟩ := hdot
      have hstop : (suf.reverse ++ pre.reverse).takeWhile
          (fun c => decide (c ≠ '.')) = suf.reverse.takeWhile
          (fun c => decide (c ≠ '.')) :=
        takeWhile_append_stop _ ⟨cd, hcd, by simpa using hcdp⟩
      rw [hstop]
      have hlt : (suf.reverse.takeWhile
          (fun c => decide (c ≠ '.'))).length < suf.reverse.length := by
        rcases Nat.lt_or_ge (suf.reverse.takeWhile
          (fun c => decide (c ≠ '.'))).length suf.reverse.length with h | h
        · exact h
        · exfalso
          have hle := (List.takeWhile_sublist
            (l := suf.reverse) (fun c => decide (c ≠ '.'))).length_le
          have heq : suf.reverse.takeWhile (fun c => decide (c ≠ '.'))
              = suf.reverse :=
            (List.takeWhile_prefix _).eq_of_length (by omega)
          have h9 := List.mem_takeWhile_imp (heq.symm ▸ hcd)
          simp at h9
          simp [h9] at hcdp
      rw [if_neg (by rw [List.length_append]; omega)]
      split
      · refine ⟨(suf.reverse.drop ((suf.reverse.takeWhile
          (fun c => decide (c ≠ '.'))).length + 1)).reverse, ?_⟩
        have hF1 : (suf.reverse ++ pre.reverse).drop
            (suf.reverse ++ pre.reverse).length = [] :=
          List.drop_length _
        have hF2 : (suf.reverse ++ pre.reverse).drop
            ((suf.reverse.takeWhile
              (fun c => decide (c ≠ '.'))).length + 1)
            = suf.reverse.drop ((suf.reverse.takeWhile
                (fun c => decide (c ≠ '.'))).length + 1)
              ++ pre.reverse := by
          apply List.drop_append_of_le_length
          omega
        simp only [hF2]
        rw [show (suf.reverse ++ pre.reverse).drop
            ((suf.reverse ++ pre.reverse).length) = [] from hF1]
        simp [List.reverse_append]
      · exact ⟨suf, rfl⟩
  · push_neg at hslash
    obtain ⟨cs, hcs, hcsp⟩ := hslash
    have hstop1 : (suf.reverse ++ pre.reverse).takeWhile
        (fun c => decide (c ≠ '/')) = suf.reverse.takeWhile
        (fun c => decide (c ≠ '/')) :=
      takeWhile_append_stop _ ⟨cs, hcs, by simpa using hcsp⟩
    rw [hstop1]
    have hltF : (suf.reverse.takeWhile
        (fun c => decide (c ≠ '/'))).length ≤ suf.reverse.length :=
      (List.takeWhile_sublist _).length_le
    have hdirRev : (suf.reverse ++ pre.reverse).drop
        (suf.reverse.takeWhile (fun c => decide (c ≠ '/'))).length
        = suf.reverse.drop ((suf.reverse.takeWhile
            (fun c => decide (c ≠ '/'))).length) ++ pre.reverse := by
      apply List.drop_append_of_le_length
      omega
    rw [hdirRev]
    split
    · exact ⟨suf, rfl⟩
    · split
      · refine ⟨((suf.reverse.drop ((suf.reverse.takeWhile
          (fun c => decide (c ≠ '/'))).length)).reverse ++
          ((suf.reverse.takeWhile (fun c => decide (c ≠ '/'))).drop
            (((suf.reverse.takeWhile (fun c => decide (c ≠ '/'))).takeWhile
              (fun c => decide (c ≠ '.'))).length + 1)).reverse), ?_⟩
        simp [List.reverse_append]
      · exact ⟨suf, rfl⟩

theorem digitChars_facts : ∀ c ∈ digitChars, c ≠ '.' ∧ c ≠ '/' ∧
    illegalChar c = false ∧ c ≠ '_' ∧
    inStripSet ['_', '.'] c = false ∧ Char.isWhitespace c = false ∧
    Char.toUpper c = c ∧ c.isDigit = true := by decide

theorem reserved_heads : ∀ r ∈ reservedNames,
    (r.headD ' ').isDigit = false := by decide

theorem map_id_of_mem {f : Char → Char} :
    ∀ (l : Str), (∀ c ∈ l, f c = c) → l.map f = l := by
  intro l h
  induction l with
  | nil => rfl
  | cons c t ih =>
    simp only [List.map_cons, h c (by simp)]
    rw [ih (fun x hx => h x (by simp [hx]))]

theorem collapseAux_clean_prefix :
    ∀ (a : Str) (flag : Bool) (b : Str), a ≠ [] → (∀ c ∈ a, c ≠ '_') →
      collapseAux flag (a ++ b) = a ++ collapseAux false b := by
  intro a
  induction a with
  | nil => intro flag b h; exact absurd rfl h
  | cons c t ih =>
    intro flag b _ hmem
    have hc : ¬ c = '_' := hmem c (by simp)
    rw [List.cons_append, collapseAux, if_neg hc]
    rcases ht : t with _ | ⟨d, t2⟩
    · simp [collapseAux]
    · rw [← ht]
      rw [ih false b (by rw [ht]; simp)
        (fun x hx => hmem x (by simp [hx]))]
      simp

theorem rstrip_anchor (p : Char → Bool) (a : Str) (c : Char) (b : Str)
    (hc : p c = false) :
    ∃ t, ((a ++ c :: b).reverse.dropWhile p).reverse = a ++ c :: t := by
  rw [List.reverse_append, List.reverse_cons]
  by_cases hall : ∀ x ∈ b.reverse, p x = true
  · have h1 : ((b.reverse ++ [c]) ++ a.reverse).dropWhile p
        = [c] ++ a.reverse := by
      rw [List.append_assoc]
      rw [dropWhile_append_all _ hall]
      simp [List.dropWhile_cons, hc]
    rw [h1]
    exact ⟨[], by simp⟩
  · push_neg at hall
    obtain ⟨x, hx, hxp⟩ := hall
    have h1 : ((b.reverse ++ [c]) ++ a.reverse).dropWhile p
        = b.reverse.dropWhile p ++ [c] ++ a.reverse := by
      rw [List.append_assoc]
      rw [dropWhile_append_stop _ ⟨x, hx, by simpa using hxp⟩]
      rw [← List.append_assoc]
    rw [h1]
    refine ⟨(b.reverse.dropWhile p).reverse, ?_⟩
    simp

theorem stripChars_anchor (set : Str) (d : Char) (a : Str) (c : Char)
    (b : Str) (hd : inStripSet set d = false)
    (hc : inStripSet set c = false) :
    ∃ t, stripChars set ((d :: a) ++ c :: b) = (d :: a) ++ c :: t := by
  unfold stripChars
  rw [List.cons_append, List.dropWhile_cons]
  rw [hd]
  simp only [Bool.false_eq_true, if_false]
  rw [← List.cons_append]
  exact rstrip_anchor (inStripSet set) (d :: a) c b hc

theorem stripWs_anchor (d : Char) (a : Str) (c : Char) (b : Str)
    (hd : Char.isWhitespace d = false)
    (hc : Char.isWhitespace c = false) :
    ∃ t, stripWs ((d :: a) ++ c :: b) = (d :: a) ++ c :: t := by
  unfold stripWs
  rw [List.cons_append, List.dropWhile_cons]
  rw [hd]
  simp only [Bool.false_eq_true, if_false]
  rw [← List.cons_append]
  exact rstrip_anchor Char.isWhitespace (d :: a) c b hc

/-- Every item label starts with the unpadded decimal id followed by a
space and a dash: the sanitize pipeline never disturbs this prefix. -/
theorem itemLabel_decomp (id : Nat) (name : Str) :
    ∃ t, itemLabel id name = natDecimal id ++ ' ' :: '-' :: t := by
  obtain ⟨d0, D', hD⟩ : ∃ d0 D', natDecimal id = d0 :: D' := by
    rcases h : natDecimal id with _ | ⟨d0, D'⟩
    · exact absurd h (natDecimal_ne_nil id)
    · exact ⟨d0, D', rfl⟩
  have hDmem : ∀ c ∈ natDecimal id, c ∈ digitChars := natDecimal_chars id
  have hd0 : d0 ∈ digitChars := hDmem d0 (by rw [hD]; simp)
  have hdash : " - ".data = [' ', '-', ' '] := rfl
  have hpre : ∀ c ∈ natDecimal id ++ " - ".data, c ≠ '.' ∧ c ≠ '/' := by
    intro c hc
    rcases List.mem_append.mp hc with h1 | h2
    · have hf := digitChars_facts c (hDmem c h1)
      exact ⟨hf.1, hf.2.1⟩
    · rw [hdash] at h2
      fin_cases h2 <;> exact ⟨by decide, by decide⟩
  obtain ⟨γ, hγ⟩ := splitext_prefix (natDecimal id ++ " - ".data) name hpre
  unfold itemLabel sanitize_name
  rw [if_neg (by simp [optTruthy])]
  simp only []
  -- reduce sanitizeBase
  have hbase : sanitizeBase (natDecimal id ++ " - ".data ++ name) none
      = stripChars ['_', '.'] (collapseUnderscores
        (if upperStr ((natDecimal id ++ " - ".data)
            ++ γ.map (fun c => if illegalChar c then '_' else c))
            ∈ reservedNames then ['_']
         else (natDecimal id ++ " - ".data)
            ++ γ.map (fun c => if illegalChar c then '_' else c))) := by
    unfold sanitizeBase
    simp only [show optTruthy none = false from rfl, Bool.false_eq_true,
      if_false]
    rw [hγ]
    rw [List.map_append]
    rw [map_id_of_mem (natDecimal id ++ " - ".data) (by
      intro c hc
      rcases List.mem_append.mp hc with h1 | h2
      · have hf := digitChars_facts c (hDmem c h1)
        simp [hf.2.2.1]
      · rw [hdash] at h2
        fin_cases h2 <;> rfl)]
  rw [hbase]
  -- the reserved-name branch is not taken
  rw [if_neg (by
    intro hmem
    have hhead : upperStr ((natDecimal id ++ " - ".data)
        ++ γ.map (fun c => if illegalChar c then '_' else c))
        = d0 :: (upperStr (D' ++ " - ".data
          ++ γ.map (fun c => if illegalChar c then '_' else c))) := by
      rw [hD]
      simp only [List.cons_append, upperStr, List.map_cons]
      rw [(digitChars_facts d0 hd0).2.2.2.2.2.2.1]
    rw [hhead] at hmem
    have hr := reserved_heads _ hmem
    simp only [List.headD] at hr
    rw [(digitChars_facts d0 hd0).2.2.2.2.2.2.2] at hr
    cases hr)]
  -- collapse over the clean prefix
  rw [show collapseUnderscores ((natDecimal id ++ " - ".data)
      ++ γ.map (fun c => if illegalChar c then '_' else c))
      = (natDecimal id ++ " - ".data) ++ collapseAux false
        (γ.map (fun c => if illegalChar c then '_' else c)) from by
    unfold collapseUnderscores
    apply collapseAux_clean_prefix
    · intro hnil
      exact natDecimal_ne_nil id (List.append_eq_nil.mp hnil).1
    · intro c hc
      rcases List.mem_append.mp hc with h1 | h2
      · exact (digitChars_facts c (hDmem c h1)).2.2.2.1
      · rw [hdash] at h2
        fin_cases h2 <;> decide]
  -- strip over the anchored prefix
  have hshape : (natDecimal id ++ " - ".data) ++ collapseAux false
      (γ.map (fun c => if illegalChar c then '_' else c))
      = (d0 :: (D' ++ [' '])) ++ '-' :: (' ' :: collapseAux false
        (γ.map (fun c => if illegalChar c then '_' else c))) := by
    rw [hD, hdash]
    simp
  rw [hshape]
  obtain ⟨t1, ht1⟩ := stripChars_anchor ['_', '.'] d0 (D' ++ [' ']) '-'
    (' ' :: collapseAux false
      (γ.map (fun c => if illegalChar c then '_' else c)))
    ((digitChars_facts d0 hd0).2.2.2.2.1) (by decide)
  rw [ht1]
  rw [show ((d0 :: (D' ++ [' '])) ++ '-' :: t1)
      ++ (splitext (natDecimal id ++ " - ".data ++ name)).2
      = (d0 :: (D' ++ [' '])) ++ '-' :: (t1
        ++ (splitext (natDecimal id ++ " - ".data ++ name)).2) from by
    simp]
  obtain ⟨t2, ht2⟩ := stripWs_anchor d0 (D' ++ [' ']) '-'
    (t1 ++ (splitext (natDecimal id ++ " - ".data ++ name)).2)
    ((digitChars_facts d0 hd0).2.2.2.2.2.1) (by decide)
  rw [ht2]
  refine ⟨t2, ?_⟩
  rw [hD]
  simp

theorem itemLabel_digit_run (id : Nat) (name : Str) :
    (itemLabel id name).takeWhile (fun c => c.isDigit) = natDecimal id := by
  obtain ⟨t, ht⟩ := itemLabel_decomp id name
  rw [ht]
  rw [takeWhile_append_all _ (fun c hc =>
    (digitChars_facts c (natDecimal_chars id c hc)).2.2.2.2.2.2.2)]
  simp [List.takeWhile_cons]

theorem itemLabel_unique {i j : Nat} (name : Str) (hij : i ≠ j) :
    itemLabel i name ≠ itemLabel j name := by
  intro h
  have h1 := itemLabel_digit_run i name
  have h2 := itemLabel_digit_run j name
  rw [h] at h1
  rw [h1] at h2
  exact hij (natDecimal_injective h2)

theorem any_writeDisk_mono {d : List (Str × Nat)} {p q : Str} {n : Nat}
    (h : d.any (fun e => e.1 = q) = true) :
    (writeDisk d p n).any (fun e => e.1 = q) = true := by
  unfold writeDisk
  rw [List.any_cons]
  by_cases hpq : p = q
  · simp [hpq]
  · rw [List.any_eq_true] at h
    obtain ⟨x, hx, hxq⟩ := h
    rw [Bool.or_eq_true]
    right
    rw [List.any_eq_true]
    refine ⟨x, ?_, hxq⟩
    rw [List.mem_filter]
    refine ⟨hx, ?_⟩
    simp only [decide_eq_true_eq] at hxq ⊢
    intro hxp
    exact hpq (by rw [← hxp, hxq])

theorem any_appendDisk_mono {d : List (Str × Nat)} {p q : Str} {n : Nat}
    (h : d.any (fun e => e.1 = q) = true) :
    (appendDisk d p n).any (fun e => e.1 = q) = true := by
  unfold appendDisk
  split
  · rw [List.any_eq_true] at h ⊢
    obtain ⟨x, hx, hxq⟩ := h
    refine ⟨if x.1 = p then (x.1, x.2 + n) else x,
      List.mem_map_of_mem _ hx, ?_⟩
    split <;> simpa using hxq
  · rw [List.any_cons]
    rw [h]
    simp

theorem fileExists_writeDisk_mono {w : World} {q : Str}
    (h : fileExists w q = true) (p : Str) (n a b : Nat)
    (fr : List (Str × Str)) :
    fileExists (World.mk (writeDisk w.disk p n) a b fr) q = true := by
  unfold fileExists at h ⊢
  exact any_writeDisk_mono h

theorem fileExists_appendDisk_mono {w : World} {q : Str}
    (h : fileExists w q = true) (p : Str) (n a b : Nat)
    (fr : List (Str × Str)) :
    fileExists (World.mk (appendDisk w.disk p n) a b fr) q = true := by
  unfold fileExists at h ⊢
  exact any_appendDisk_mono h

theorem dfiAux_preserves (oracle : Nat → AttemptOutcome) (url : Str) :
    ∀ fuel p rc mr w q, fileExists w q = true →
      fileExists (dfiAux oracle url fuel p rc mr w).2 q = true := by
  intro fuel
  induction fuel with
  | zero => intro p rc mr w q h; exact h
  | succ k ih =>
    intro p rc mr w q h
    rw [dfiAux]
    split
    · exact h
    · rcases horc : oracle rc with r | _
      case success =>
        simp only [horc]
        split
        · exact h
        · split
          · split
            · exact ih _ _ _ _ _ h
            · exact h
          · generalize (if strContains r.contentType "image".data = true
                then ".jpg".data
              else if strContains r.contentType "video".data = true
                then ".mp4".data
              else (splitext p).2) = ext0
            split
            · split
              · exact ih _ _ _ _ _
                  (fileExists_writeDisk_mono h _ _ _ _ _)
              · exact fileExists_writeDisk_mono h _ _ _ _ _
            · exact fileExists_writeDisk_mono h _ _ _ _ _
      case netError =>
        simp only [horc]
        split
        · exact ih _ _ _ _ _ h
        · exact h

theorem fileExists_writeDisk_self (d : List (Str × Nat)) (p : Str)
    (n a b : Nat) (fr : List (Str × Str)) :
    fileExists (World.mk (writeDisk d p n) a b fr) p = true := by
  unfold fileExists writeDisk
  simp [List.any_cons]

theorem any_writeDisk_self (d : List (Str × Nat)) (p : Str) (n : Nat) :
    (writeDisk d p n).any (fun e => e.1 = p) = true := by
  unfold writeDisk
  simp [List.any_cons]

theorem dfi_preserves (oracle : Nat → AttemptOutcome) (url p : Str)
    (rc mr : Nat) (w : World) (q : Str) (h : fileExists w q = true) :
    fileExists (download_file_or_image oracle url p rc mr w).2 q = true := by
  unfold download_file_or_image
  exact dfiAux_preserves oracle url _ p rc mr w q h

theorem dmfFileStep_desc (net : Str → Nat → AttemptOutcome) (cfg : Config)
    (dt et : Option Str) (item : Item) (tw : List Str)
    (lbl murl : Str) (st : DmfState) (f : FileEntry)
    (hfilt : fileFiltered dt et (subfolderFor item.itemType f.name)
      = false) :
    (dmfFileStep net cfg dt et item tw lbl murl st f).item_dir
      = some (dmfItemDir cfg item (subfolderFor item.itemType f.name) lbl) ∧
    fileExists (dmfFileStep net cfg dt et item tw lbl murl st f).w
      (pjoin (dmfItemDir cfg item (subfolderFor item.itemType f.name) lbl)
        "description.txt".data) = true := by
  unfold dmfFileStep
  simp only [hfilt, Bool.false_eq_true, if_false]
  split <;>
    (split
     · exact ⟨rfl, any_writeDisk_mono (any_writeDisk_self _ _ _)⟩
     · split
       · exact ⟨rfl, any_appendDisk_mono (dfi_preserves _ _ _ _ _ _ _
           (any_writeDisk_mono (any_writeDisk_self _ _ _)))⟩
       · exact ⟨rfl, any_appendDisk_mono (dfi_preserves _ _ _ _ _ _ _
           (any_writeDisk_mono (any_writeDisk_self _ _ _)))⟩)

/-- C8 (amended): the planned model folder is
root / creator / category / [baseModel /] itemLabel, where itemLabel is
the sanitized form of the item's unpadded decimal id followed by " - "
and the item name (first conjunct: the description.txt the code writes in
the planned folder exists there after the call); every label begins with
the decimal id followed by " -" (second conjunct), so labels of items
with distinct ids stay distinct even when the display names coincide
(third conjunct). -/
theorem c8_item_folder_amended (net : Str → Nat → AttemptOutcome) (cfg : Config)
    (dt et : Option Str) (item : Item) (f : FileEntry) (tw : List Str)
    (vbm : Option Str) (w : World)
    (hfilt : fileFiltered dt et (subfolderFor item.itemType f.name)
      = false) :
    fileExists
      (download_model_files net cfg dt et item ⟨[f], [], tw, vbm⟩ w).2
      (pjoin (dmfItemDir cfg item (subfolderFor item.itemType f.name)
        (itemLabel item.id item.name)) "description.txt".data) = true ∧
    (∀ id name, ∃ t, itemLabel id name
      = natDecimal id ++ ' ' :: '-' :: t) ∧
    (∀ i j : Nat, ∀ name : Str, i ≠ j →
      itemLabel i name ≠ itemLabel j name) := by
  refine ⟨?_, itemLabel_decomp, fun i j name hij => itemLabel_unique name hij⟩
  unfold download_model_files
  simp only [List.foldl_cons, List.foldl_nil]
  have hstep := dmfFileStep_desc net cfg dt et item tw
    (itemLabel item.id item.name)
    ("https://civitai.com/models/".data ++ natDecimal item.id)
    ⟨w, false, none, [], []⟩ f hfilt
  rw [hstep.1]
  exact hstep.2

/-- C8 (counterexample): the claim fails as stated. For item id 42 named
X, the label is 42 - X, not the 7-digit zero-padded 0000042 - X, and the
planned folder on disk after a run is model_downloads/alice/Lora/42 - X,
while no zero-padded folder is created. -/
theorem c8_zero_pad_counterexample :
    itemLabel 42 "X".data = "42 - X".data ∧
    "42 - X".data ≠ "0000042 - X".data ∧
    fileExists (download_model_files netAllOk cfgScenario (some "All".data)
        none ⟨42, "X".data, some "LORA".data, [], none⟩
        ⟨[⟨"a.safetensors".data, "http://u".data⟩], [], [], none⟩
        emptyWorld).2
      "model_downloads/alice/Lora/42 - X/description.txt".data = true ∧
    fileExists (download_model_files netAllOk cfgScenario (some "All".data)
        none ⟨42, "X".data, some "LORA".data, [], none⟩
        ⟨[⟨"a.safetensors".data, "http://u".data⟩], [], [], none⟩
        emptyWorld).2
      "model_downloads/alice/Lora/0000042 - X/description.txt".data
      = false :=
  ⟨by decide, by decide, by decide, by decide⟩

/-- C8 (witness): the amended theorem applied at a concrete input. -/
theorem c8_item_folder_witness :
    fileFiltered (some "All".data) none
      (subfolderFor (some "LORA".data) "b.safetensors".data) = false ∧
    fileExists (download_model_files netAllOk cfgScenario (some "All".data)
        none ⟨7, "N".data, some "LORA".data, [], none⟩
        ⟨[⟨"b.safetensors".data, "http://v".data⟩], [], [], none⟩
        emptyWorld).2
      (pjoin (dmfItemDir cfgScenario
        ⟨7, "N".data, some "LORA".data, [], none⟩
        (subfolderFor (some "LORA".data) "b.safetensors".data)
        (itemLabel 7 "N".data)) "description.txt".data) = true ∧
    itemLabel 7 "N".data = natDecimal 7 ++ ' ' :: '-' :: " N".data ∧
    itemLabel 7 "N".data ≠ itemLabel 8 "N".data :=
  ⟨by decide,
   (c8_item_folder_amended netAllOk cfgScenario (some "All".data) none
     ⟨7, "N".data, some "LORA".data, [], none⟩
     ⟨"b.safetensors".data, "http://v".data⟩ [] none emptyWorld
     (by decide)).1,
   by decide, by decide⟩
